import Mathlib

/-!
Verification development for an L7700 nurse-call monitor: a UDP packet
decoder (`decoder.py`), a fuzzy bed resolver and per-bed call-session
tracker (`server.py`), and a camera-stream manager (`camera_stream.py`).
Python strings are modelled as `List Char` (ASCII range of the byte-wise
`latin1` decoding), byte buffers as `List Nat`, and the database rows the
code reads and writes as explicit Lean structures, with a SQLAlchemy
`query(...).filter(...).first()` modelled as the first element of the row
list satisfying the filter.
-/

abbrev PyStr := List Char

/-- Whitespace as recognised by Python's `str.strip` / `str.split` / `re \s`
for the character range the decoder produces. -/
def pyIsSpace (c : Char) : Bool :=
  c = ' ' || c = '\t' || c = '\n' || c = '\x0b' || c = '\x0c' || c = '\r' ||
  c = '\x1c' || c = '\x1d' || c = '\x1e' || c = '\x1f' || c = '\x85' || c = '\xa0'

/-- `str.lower` on one character (ASCII range). -/
def pyLowerChar (c : Char) : Char :=
  if 'A' ≤ c ∧ c ≤ 'Z' then Char.ofNat (c.toNat + 32) else c

/-- `str.upper` on one character (ASCII range). -/
def pyUpperChar (c : Char) : Char :=
  if 'a' ≤ c ∧ c ≤ 'z' then Char.ofNat (c.toNat - 32) else c

/-- A decimal digit (`re \d`, ASCII). -/
def pyIsDigit (c : Char) : Bool :=
  c = '0' || c = '1' || c = '2' || c = '3' || c = '4' ||
  c = '5' || c = '6' || c = '7' || c = '8' || c = '9'

/-- `str.isalnum` on one character (ASCII range). -/
def pyIsAlnum (c : Char) : Bool :=
  pyIsDigit c || ('A' ≤ c && c ≤ 'Z') || ('a' ≤ c && c ≤ 'z')

/-- `str.lower`. -/
def pyLower (s : PyStr) : PyStr := s.map pyLowerChar

/-- `s.strip()` with the trailing side handled by reversing. -/
def pyStrip (s : PyStr) : PyStr :=
  (((s.dropWhile pyIsSpace).reverse).dropWhile pyIsSpace).reverse

/-- Python's `needle in hay` substring test. -/
def strContains (hay needle : PyStr) : Bool :=
  match hay with
  | [] => needle.isEmpty
  | _ :: rest => needle.isPrefixOf hay || strContains rest needle

/-- `str.split()` helper: `acc` holds the current word reversed. -/
def pySplitAux (s : List Char) (acc : List Char) : List PyStr :=
  match s with
  | [] => if acc.isEmpty then [] else [acc.reverse]
  | c :: rest =>
    if pyIsSpace c then
      if acc.isEmpty then pySplitAux rest [] else acc.reverse :: pySplitAux rest []
    else pySplitAux rest (c :: acc)

/-- `str.split()` (split on whitespace runs, no empty fields). -/
def pySplit (s : PyStr) : List PyStr := pySplitAux s []

/-- `_norm` from `server.py`: `"".join(ch for ch in s.upper() if ch.isalnum())`.
(The code's `if not s: return ""` branch coincides with the general case.) -/
def normStr (s : PyStr) : PyStr := (s.map pyUpperChar).filter pyIsAlnum

/-- `" ".join(tokens)`. -/
def joinTokens : List PyStr → PyStr
  | [] => []
  | [t] => t
  | t :: ts => t ++ ' ' :: joinTokens ts

/-- Word character for `re \b` boundaries (ASCII range of `\w`). -/
def reWordChar (c : Char) : Bool := pyIsAlnum c || c = '_'

/-- `re.findall(r"\b\d+\b", s)` as a one-pass scanner.  `acc` is the digit
run currently being read (reversed), `okS` records whether it started at a
word boundary, and `prevW` whether the previous character (outside a run)
was a word character. -/
def findNumsAux : List Char → Bool → List Char → Bool → List PyStr
  | [], _, acc, okS => if okS ∧ ¬acc.isEmpty then [acc.reverse] else []
  | c :: rest, prevW, acc, okS =>
    if pyIsDigit c then
      if acc.isEmpty then findNumsAux rest prevW [c] (!prevW)
      else findNumsAux rest prevW (c :: acc) okS
    else
      if ¬acc.isEmpty ∧ okS ∧ ¬reWordChar c then
        acc.reverse :: findNumsAux rest (reWordChar c) [] false
      else findNumsAux rest (reWordChar c) [] false

/-- All standalone digit runs of `s` (`re.findall(r"\b\d+\b", s)`). -/
def findNums (s : PyStr) : List PyStr := findNumsAux s false [] false

-- ----------------- Call sessions (`server.py`) -----------------

/-- The status literal `'active'`. -/
def activeStr : PyStr := "active".data

/-- The status literal `'ended'`. -/
def endedStr : PyStr := "ended".data

/-- The event literal `'reset'`. -/
def resetStr : PyStr := "reset".data

/-- A `call_sessions` row as far as `udp_listener` reads and writes it. -/
structure CallSession where
  bed_id : Nat
  current_event_type : PyStr
  status : PyStr
deriving DecidableEq, Repr

/-- The filter `CallSession.bed_id == bed_id, CallSession.status == 'active'`. -/
def isActiveFor (b : Nat) (cs : CallSession) : Bool :=
  cs.bed_id == b && cs.status == activeStr

/-- In-place update of the first active session's `current_event_type`
(the row `query(...).first()` returned, mutated and committed). -/
def setFirstActiveEvent : List CallSession → Nat → PyStr → List CallSession
  | [], _, _ => []
  | cs :: rest, b, et =>
    if isActiveFor b cs then { cs with current_event_type := et } :: rest
    else cs :: setFirstActiveEvent rest b et

/-- In-place update of the first active session's `status` to `'ended'`
(the reset branch of `udp_listener`). -/
def endFirstActive : List CallSession → Nat → List CallSession
  | [], _ => []
  | cs :: rest, b =>
    if isActiveFor b cs then { cs with status := endedStr } :: rest
    else cs :: endFirstActive rest b

/-- `get_or_create_call_session` from `server.py`: returns the new table
state together with the session handed back to the caller. -/
def get_or_create_call_session (db : List CallSession) (bed_id : Nat)
    (event_type : PyStr) : List CallSession × CallSession :=
  match db.find? (isActiveFor bed_id) with
  | some cs => (setFirstActiveEvent db bed_id event_type,
                { cs with current_event_type := event_type })
  | none =>
    let cs : CallSession := ⟨bed_id, event_type, activeStr⟩
    (db ++ [cs], cs)

/-- Python truthiness of the `bed_id` value (`None` and `0` are falsy). -/
def pyTruthyId : Option Nat → Bool
  | none => false
  | some n => n != 0

/-- The session-state transitions of one `udp_listener` ingestion cycle
(`server.py` lines 417-433): the reset branch ends the first active session
of the bed, the non-reset branch runs `get_or_create_call_session`. -/
def ingestSessions (db : List CallSession) (event_type : PyStr)
    (bed_id : Option Nat) : List CallSession :=
  let db1 :=
    if pyLower event_type = resetStr ∧ pyTruthyId bed_id then
      endFirstActive db (bed_id.getD 0)
    else db
  if pyLower event_type ≠ resetStr ∧ pyTruthyId bed_id then
    (get_or_create_call_session db1 (bed_id.getD 0) event_type).1
  else db1

/-- Number of active sessions a bed has. -/
def countActive (db : List CallSession) (b : Nat) : Nat :=
  db.countP (isActiveFor b)

/-- The call-session invariant: at most one active session per bed. -/
def SessionInv (db : List CallSession) : Prop :=
  ∀ b : Nat, countActive db b ≤ 1

-- ----------------- Camera manager (`camera_stream.py`) -----------------

/-- The stream variants `CameraManager.add_camera` can construct
(constructor arguments as passed in the code: `CameraSimulator(key)`,
`RealCameraStream(rtsp_url, key)`). -/
inductive CameraStream
  | simulator (room_name : PyStr)
  | real (rtsp_url : PyStr) (room_name : PyStr)
deriving DecidableEq, Repr

/-- The manager state: `self.cameras` as an insertion-ordered map, plus
`self.use_simulation`.  (Thread start/stop side effects are not part of the
map state.) -/
structure CameraManager where
  cameras : List (PyStr × CameraStream)
  use_simulation : Bool
deriving DecidableEq, Repr

/-- `CameraManager._key`: `(room_name or "").strip()`. -/
def cameraKey (room_name : PyStr) : PyStr := pyStrip room_name

/-- `CameraManager.add_camera`: no-op on an existing key, otherwise choose
the variant from the `demo://` prefix and `use_simulation`, raising
`ValueError` when a live stream has no RTSP URL.  `rtsp_url = []` models
both `None` (the default) and the empty string, which Python treats alike
here (both falsy). -/
def add_camera (m : CameraManager) (room_name : PyStr) (rtsp_url : PyStr) :
    Except PyStr CameraManager :=
  let key := cameraKey room_name
  if (m.cameras.find? (fun p => p.1 == key)).isSome then .ok m
  else if ¬rtsp_url.isEmpty ∧ ("demo://".data).isPrefixOf rtsp_url then
    .ok { m with cameras := m.cameras ++ [(key, .simulator key)] }
  else if m.use_simulation then
    .ok { m with cameras := m.cameras ++ [(key, .simulator key)] }
  else if rtsp_url.isEmpty then .error ("RTSP URL required".data)
  else .ok { m with cameras := m.cameras ++ [(key, .real rtsp_url key)] }

-- ----------------- Decoded packet dictionary (`decoder.py` output) -----------------

/-- The dictionary `decode_l7700_packet` returns.  `room` holds the UI
title (the bed label when one was found) and `bed` the subtitle, per the
swap comment in the code; `bed_name`/`room_name` keep the originals. -/
structure DecodedPacket where
  timestamp : PyStr
  room : PyStr
  bed : PyStr
  bed_name : PyStr
  room_name : PyStr
  device : PyStr
  event : PyStr
  raw_hex : PyStr
deriving DecidableEq, Repr

/-- Build a decoded dictionary from the three fields `resolve_bed_in_room`
reads (used for concrete scenarios). -/
def mkDecoded (bed device room : PyStr) : DecodedPacket :=
  { timestamp := [], room := room, bed := bed, bed_name := [], room_name := [],
    device := device, event := [], raw_hex := [] }

-- ----------------- Bed resolution (`server.py`) -----------------

/-- A `beds` row as far as `resolve_bed_in_room` reads it; `bed_number` and
`bed_name` are nullable columns. -/
structure Bed where
  id : Nat
  bed_number : Option PyStr
  bed_name : Option PyStr
deriving DecidableEq, Repr

/-- A room together with its registered beds: `beds` models the result of
`session.query(Bed).filter(Bed.room_id == room.id).all()`. -/
structure Room where
  beds : List Bed
deriving DecidableEq, Repr

/-- Python truthiness of a nullable string column (`None` and `""` falsy). -/
def optTruthy : Option PyStr → Bool
  | none => false
  | some s => !s.isEmpty

/-- Candidate token list: stripped `bed`, `device`, `room` fields of the
decoded dict, empties skipped. -/
def tokensOf (decoded : DecodedPacket) : List PyStr :=
  ([decoded.bed, decoded.device, decoded.room].map pyStrip).filter (fun v => !v.isEmpty)

/-- Tier 1 per-bed test: exact case-insensitive equality of the token with
the stripped bed number or bed name. -/
def tier1Cond (tl : PyStr) (b : Bed) : Bool :=
  (optTruthy b.bed_number && (pyLower (pyStrip (b.bed_number.getD [])) == tl)) ||
  (optTruthy b.bed_name && (pyLower (pyStrip (b.bed_name.getD [])) == tl))

/-- Tier 1 (`# 1) exact match`): token-major scan, first bed whose number
or name equals the lowered token. -/
def tier1 (tokens : List PyStr) (beds : List Bed) : Option Bed :=
  match tokens with
  | [] => none
  | t :: ts =>
    match beds.find? (tier1Cond (pyLower t)) with
    | some b => some b
    | none => tier1 ts beds

/-- Tier 2 per-pair test: normalized substring containment in either
direction, with the emptiness guards of the code. -/
def tier2Cond (b : Bed) (nt : PyStr) : Bool :=
  let bn := normStr (b.bed_number.getD [])
  let bname := normStr (b.bed_name.getD [])
  strContains bname nt || strContains bn nt ||
  (!bname.isEmpty && strContains nt bname) || (!bn.isEmpty && strContains nt bn)

/-- Tier 2 (`# 2) normalized partial match`): bed-major scan over the
normalized tokens (empty normalized tokens skipped). -/
def tier2 (beds : List Bed) (ntokens : List PyStr) : Option Bed :=
  beds.find? (fun b => ntokens.any (fun nt => !nt.isEmpty && tier2Cond b nt))

/-- Tier 3 (`# 3) numeric hint`): number-major scan, first bed whose
stripped bed number equals a standalone digit run. -/
def tier3 (beds : List Bed) (nums : List PyStr) : Option Bed :=
  match nums with
  | [] => none
  | n :: ns =>
    match beds.find? (fun b => pyStrip (b.bed_number.getD []) == n) with
    | some b => some b
    | none => tier3 beds ns

/-- Stable insertion for `sorted(beds, key=lambda x: x.id)`. -/
def insertById (b : Bed) : List Bed → List Bed
  | [] => [b]
  | x :: xs => if x.id < b.id then x :: insertById b xs else b :: x :: xs

/-- `sorted(beds, key=lambda x: x.id)` (stable). -/
def pySortedById : List Bed → List Bed
  | [] => []
  | b :: bs => insertById b (pySortedById bs)

/-- Tier 4 (`# 4) fallback`): the single bed, else the smallest-id bed. -/
def tier4 (beds : List Bed) : Option Bed :=
  if beds.length = 1 then beds.head? else (pySortedById beds).head?

/-- `ntokens = [_norm(t) for t in tokens if t]`. -/
def ntokensOf (tokens : List PyStr) : List PyStr :=
  (tokens.filter (fun t => !t.isEmpty)).map normStr

/-- `nums = re.findall(r"\b\d+\b", " ".join(tokens))`. -/
def numsOf (tokens : List PyStr) : List PyStr := findNums (joinTokens tokens)

/-- `resolve_bed_in_room` from `server.py`: `room = none` models the
`if not room` guard, the empty bed list the `if not beds` guard, then the
four tiers in order with early return. -/
def resolve_bed_in_room : Option Room → DecodedPacket → Option Bed
  | none, _ => none
  | some r, decoded =>
    if r.beds.isEmpty then none
    else
      let tokens := tokensOf decoded
      match tier1 tokens r.beds with
      | some b => some b
      | none =>
        match tier2 r.beds (ntokensOf tokens) with
        | some b => some b
        | none =>
          match tier3 r.beds (numsOf tokens) with
          | some b => some b
          | none => tier4 r.beds

/-- A three-bed room used in the numeric-hint scenario. -/
def c6Room : Room :=
  ⟨[⟨1, some ("1".data), some ("Alpha".data)⟩,
    ⟨2, some ("2".data), some ("Beta".data)⟩,
    ⟨3, some ("3".data), some ("Gamma".data)⟩]⟩

/-- A decoded input whose only candidate token is `"No 3"`, yielding the
standalone digit hint `"3"`. -/
def c6Decoded : DecodedPacket := mkDecoded ("No 3".data) [] []

/-- The bed numbered `"3"` of `c6Room`. -/
def c6Bed : Bed := ⟨3, some ("3".data), some ("Gamma".data)⟩

-- ----------------- Packet decoder (`decoder.py`) -----------------

/-- Latin-1 decoding of one byte (`payload.decode("latin1", "ignore")`). -/
def latin1Char (b : Nat) : Char := Char.ofNat b

/-- Zero-padded decimal formatting (`f"{n:04}"` / `f"{n:02}"`). -/
def padNum (w n : Nat) : PyStr :=
  let s := Nat.toDigits 10 n
  List.replicate (w - s.length) '0' ++ s

/-- `_parse_timestamp` from `decoder.py`: six bytes as
(year-offset, month, day, hour, minute, second), `year = 2000 + yy` when
`yy < 100` else `yy` verbatim, all fields zero-padded, no range checks. -/
def _parse_timestamp (ts : List Nat) : PyStr :=
  if ts.length < 6 then ("0000-00-00 00:00:00".data)
  else
    let yy := ts.getD 0 0
    let mm := ts.getD 1 0
    let dd := ts.getD 2 0
    let hh := ts.getD 3 0
    let mi := ts.getD 4 0
    let ss := ts.getD 5 0
    let year := if yy < 100 then 2000 + yy else yy
    padNum 4 year ++ ('-' :: padNum 2 mm) ++ ('-' :: padNum 2 dd) ++
      (' ' :: padNum 2 hh) ++ (':' :: padNum 2 mi) ++ (':' :: padNum 2 ss)

/-- `_cleanup_ascii_block`: `s.replace("\x00", "").strip()`. -/
def _cleanup_ascii_block (s : PyStr) : PyStr :=
  pyStrip (s.filter (fun c => c ≠ '\x00'))

/-- Character at index, `none` past the end. -/
def charAt (s : List Char) (i : Nat) : Option Char := (s.drop i).head?

/-- Whether the character (string edge = `none`) is a regex word character. -/
def wordAt (oc : Option Char) : Bool :=
  match oc with
  | none => false
  | some c => reWordChar c

/-- `re \b` at position `i` of `s`. -/
def boundaryAt (s : List Char) (i : Nat) : Bool :=
  wordAt (if i = 0 then none else charAt s (i - 1)) != wordAt (charAt s i)

/-- Case-insensitive literal match of `pat` at position `i` (IGNORECASE). -/
def icMatchAt (s : List Char) (i : Nat) (pat : List Char) : Bool :=
  match pat with
  | [] => true
  | p :: ps =>
    match charAt s i with
    | some c => (pyLowerChar c == pyLowerChar p) && icMatchAt s (i + 1) ps
    | none => false

/-- Length of the run of `cls` characters starting at position `i`. -/
def runLenFrom (cls : Char → Bool) (s : List Char) (i : Nat) : Nat :=
  ((s.drop i).takeWhile cls).length

/-- The slice `s[i:j]`. -/
def sliceStr (s : List Char) (i j : Nat) : List Char := (s.drop i).take (j - i)

/-- Leftmost-match scan driver: try `f` at positions `i, i+1, ...`
(`fuel` positions in all), as `re.search` does. -/
def scanPos {α : Type} (f : Nat → Option α) : Nat → Nat → Option α
  | _, 0 => none
  | i, fuel + 1 =>
    match f i with
    | some r => some r
    | none => scanPos f (i + 1) fuel

/-- `str.find(pat)`: index of the leftmost occurrence. -/
def strFind (s pat : List Char) : Option Nat :=
  scanPos (fun i => if pat.isPrefixOf (s.drop i) then some i else none) 0 (s.length + 1)

/-- The character class `[A-Za-z0-9\s\-]` of the bed/room regexes. -/
def classAlnumSpaceDash (c : Char) : Bool :=
  ('A' ≤ c && c ≤ 'Z') || ('a' ≤ c && c ≤ 'z') || pyIsDigit c || pyIsSpace c || c = '-'

/-- Match of `\b(BED|Bed)\s*(No\.?|NO\.?|#)?\s*[-:]?\s*(\d{1,4})\b`
(IGNORECASE) anchored at position `i`, returning capture group 3.  Each
greedy quantifier here is forced (no later element can match the
characters it consumes, and when the optional `No`/`#` group can start it
must, since its first character matches nothing that follows), so no
backtracking search is needed; `\d{1,4}\b` succeeds exactly on a maximal
digit run of length 1-4 followed by a non-word position. -/
def matchBedAt (s : List Char) (i : Nat) : Option PyStr :=
  if boundaryAt s i && icMatchAt s i ("bed".data) then
    let j0 := i + 3
    let j1 := j0 + runLenFrom pyIsSpace s j0
    let j2 :=
      if icMatchAt s j1 ("no".data) then
        (if charAt s (j1 + 2) = some '.' then j1 + 3 else j1 + 2)
      else if charAt s j1 = some '#' then j1 + 1
      else j1
    let j3 := j2 + runLenFrom pyIsSpace s j2
    let j4 := if charAt s j3 = some '-' || charAt s j3 = some ':' then j3 + 1 else j3
    let j5 := j4 + runLenFrom pyIsSpace s j4
    let d := runLenFrom pyIsDigit s j5
    if 1 ≤ d && d ≤ 4 && !wordAt (charAt s (j5 + d)) then some (sliceStr s j5 (j5 + d))
    else none
  else none

/-- `re.search` of the first bed pattern: leftmost match. -/
def searchBedNum (s : List Char) : Option PyStr :=
  scanPos (matchBedAt s) 0 (s.length + 1)

/-- Tail `\s*[-:]?\s*\d{1,4}\b` of the second bed pattern after the `BED`
literal at `p`; on success the capture group runs from `i` to the end of
the digits. -/
def bed2Tail (s : List Char) (i p : Nat) : Option PyStr :=
  let q1 := p + runLenFrom pyIsSpace s p
  let q2 := if charAt s q1 = some '-' || charAt s q1 = some ':' then q1 + 1 else q1
  let q3 := q2 + runLenFrom pyIsSpace s q2
  let d := runLenFrom pyIsDigit s q3
  if 1 ≤ d && d ≤ 4 && boundaryAt s (q3 + d) then some (sliceStr s i (q3 + d)) else none

/-- Greedy countdown over the `[A-Za-z0-9\s\-]{1,40}` prefix length `k` of
the second bed pattern, largest `k` first. -/
def bed2KLoop (s : List Char) (i : Nat) : Nat → Option PyStr
  | 0 => none
  | k + 1 =>
    match (if icMatchAt s (i + k + 1) ("bed".data) then bed2Tail s i (i + k + 1 + 3)
           else none) with
    | some r => some r
    | none => bed2KLoop s i k

/-- Match of `\b([A-Za-z0-9\s\-]{1,40}BED\s*[-:]?\s*\d{1,4})\b`
(IGNORECASE) anchored at position `i`. -/
def matchBed2At (s : List Char) (i : Nat) : Option PyStr :=
  if boundaryAt s i then bed2KLoop s i (min 40 (runLenFrom classAlnumSpaceDash s i))
  else none

/-- `re.search` of the second bed pattern. -/
def searchBed2 (s : List Char) : Option PyStr := scanPos (matchBed2At s) 0 (s.length + 1)

/-- `_extract_bed` from `decoder.py`. -/
def _extract_bed (s : List Char) : PyStr :=
  match searchBedNum s with
  | some num => ("Bed No ".data) ++ num
  | none =>
    match searchBed2 s with
    | some g => _cleanup_ascii_block g
    | none => ("UNKNOWN".data)

/-- Greedy countdown over `\d{0,4}` of the room pattern (largest `d`
first), checking the closing `\b`; the group runs from `start`. -/
def roomDigitLoop (s : List Char) (start q2 : Nat) : Nat → Option PyStr
  | 0 => if boundaryAt s q2 then some (sliceStr s start q2) else none
  | d + 1 =>
    if boundaryAt s (q2 + d + 1) then some (sliceStr s start (q2 + d + 1))
    else roomDigitLoop s start q2 d

/-- Greedy countdown over `\s*` of the room pattern (most spaces first). -/
def roomSpaceLoop (s : List Char) (start q : Nat) : Nat → Option PyStr
  | 0 => roomDigitLoop s start q (min 4 (runLenFrom pyIsDigit s q))
  | sp + 1 =>
    match roomDigitLoop s start (q + sp + 1) (min 4 (runLenFrom pyIsDigit s (q + sp + 1))) with
    | some r => some r
    | none => roomSpaceLoop s start q sp

/-- Try one keyword alternative (`ROOM` before `RM`) at position `p`. -/
def roomKwTry (s : List Char) (i p : Nat) (kw : PyStr) : Option PyStr :=
  if icMatchAt s p kw then
    roomSpaceLoop s i (p + kw.length) (runLenFrom pyIsSpace s (p + kw.length))
  else none

/-- Greedy countdown over the `[A-Za-z0-9\s\-]{1,40}` prefix length `k`
of the room pattern, largest `k` first, `ROOM` tried before `RM`. -/
def roomKLoop (s : List Char) (i : Nat) : Nat → Option PyStr
  | 0 => none
  | k + 1 =>
    match roomKwTry s i (i + k + 1) ("room".data) with
    | some r => some r
    | none =>
      match roomKwTry s i (i + k + 1) ("rm".data) with
      | some r => some r
      | none => roomKLoop s i k

/-- Match of `\b([A-Za-z0-9\s\-]{1,40}(ROOM|RM)\s*\d{0,4})\b` (IGNORECASE)
anchored at position `i`. -/
def matchRoomAt (s : List Char) (i : Nat) : Option PyStr :=
  if boundaryAt s i then roomKLoop s i (min 40 (runLenFrom classAlnumSpaceDash s i))
  else none

/-- `re.search` of the room pattern. -/
def searchRoom (s : List Char) : Option PyStr := scanPos (matchRoomAt s) 0 (s.length + 1)

/-- Leftmost-then-greedy search of a bare class-run pattern
`([cls]{lo,hi})` (used for the room fallback `([A-Za-z0-9\-\s]{5,40})`
and the device fallback `([A-Z0-9\-\_]{6,20})`). -/
def genScanRun (cls : Char → Bool) (lo hi : Nat) (s : List Char) : Option PyStr :=
  scanPos (fun i =>
    let r := runLenFrom cls s i
    if lo ≤ r then some (sliceStr s i (i + min hi r)) else none) 0 (s.length + 1)

/-- `_extract_room` from `decoder.py`. -/
def _extract_room (s : List Char) : PyStr :=
  match searchRoom s with
  | some g => _cleanup_ascii_block g
  | none =>
    match genScanRun classAlnumSpaceDash 5 40 s with
    | some g => _cleanup_ascii_block g
    | none => ("UNKNOWN".data)

/-- The character class `[A-Z0-9\-\_]` of the device fallback (the only
pattern compiled without IGNORECASE). -/
def classDevAlt (c : Char) : Bool :=
  ('A' ≤ c && c ≤ 'Z') || pyIsDigit c || c = '-' || c = '_'

/-- The device family marker `"INTERCALL-IP"`. -/
def markerStr : PyStr := "INTERCALL-IP".data

/-- The known-event keyword priority list of `decode_l7700_packet`. -/
def eventKeywords : List PyStr :=
  [("Call".data), ("Accept".data), ("Cancel".data), ("Presence".data), ("Reset".data),
   ("ROOM SERVICE".data), ("Doctor Present".data), ("Present".data),
   ("CATERING SERVICE".data), ("Alarm".data), ("Assistance".data), ("LowBattery".data),
   ("Emergency".data), ("Isolate".data)]

/-- The keyword branch: first candidate contained case-insensitively in the
payload, else `"UNKNOWN"`. -/
def scanEventKeywords (s : PyStr) : PyStr :=
  match eventKeywords.find? (fun cand => strContains (pyLower s) (pyLower cand)) with
  | some cand => cand
  | none => ("UNKNOWN".data)

/-- The marker branch of event extraction: clean the 32 characters after
`"INTERCALL-IP"` and keep the first whitespace-delimited word.  (The
`split()[0]` subscript is guarded by the non-emptiness check; a stripped
non-empty string always splits into at least one word.) -/
def markerEvent (ascii : PyStr) (idx : Nat) : PyStr :=
  let e := _cleanup_ascii_block (sliceStr ascii (idx + 12) (idx + 12 + 32))
  if e.isEmpty then e else (pySplit e).headD []

/-- One lowercase hex digit. -/
def hexDigit (n : Nat) : Char :=
  if n < 10 then Char.ofNat (48 + n) else Char.ofNat (87 + n)

/-- Two lowercase hex digits of a byte. -/
def byteHex (b : Nat) : PyStr := [hexDigit (b / 16 % 16), hexDigit (b % 16)]

/-- `data.hex()`. -/
def rawHex (data : List Nat) : PyStr := (data.map byteHex).flatten

/-- `payload = data[1:-1]`. -/
def payloadOf (data : List Nat) : List Nat := (data.drop 1).dropLast

/-- `payload.decode("latin1", "ignore")` (all byte values decode). -/
def payloadAscii (data : List Nat) : PyStr := (payloadOf data).map latin1Char

/-- `decode_l7700_packet` from `decoder.py`.  The function body after the
framing and length guards is total, so the `except` fallback to `None` is
never taken there. -/
def decode_l7700_packet (data : List Nat) : Option DecodedPacket :=
  if data.isEmpty ∨ data.headD 0 ≠ 2 ∨ data.getLastD 0 ≠ 3 then none
  else
    let payload := payloadOf data
    if payload.length < 24 then none
    else
      let ts_block := (payload.drop 16).take 8
      let timestamp := _parse_timestamp ts_block
      let ascii := payloadAscii data
      let bed := _extract_bed ascii
      let room := _extract_room ascii
      let dev_idx := strFind ascii markerStr
      let device :=
        match dev_idx with
        | some _ => markerStr
        | none =>
          match genScanRun classDevAlt 6 20 ascii with
          | some g => _cleanup_ascii_block g
          | none => ("UNKNOWN".data)
      let event :=
        match dev_idx with
        | some idx => markerEvent ascii idx
        | none => scanEventKeywords ascii
      let title := if bed ≠ ("UNKNOWN".data) then bed else room
      let subtitle := if bed ≠ ("UNKNOWN".data) then room else []
      some {
        timestamp := timestamp
        room := pyStrip title
        bed := pyStrip subtitle
        bed_name := pyStrip bed
        room_name := pyStrip room
        device := pyStrip device
        event := pyStrip event
        raw_hex := rawHex data
      }

/-- The C5 scenario frame:
`b'\x02' + bytes([24,1,15,10,30,0]) + b'ROOM 101 BED No 3 INTERCALL-IP Call'
  + b'\x02'*pad + b'\x03'`. -/
def c5Data (pad : Nat) : List Nat :=
  [2] ++ ([24, 1, 15, 10, 30, 0] ++
    (("ROOM 101 BED No 3 INTERCALL-IP Call".data).map Char.toNat) ++
    List.replicate pad 2) ++ [3]

/-- A frame whose payload holds the marker followed only by NUL bytes. -/
def c10Data : List Nat :=
  [2] ++ (List.replicate 6 0 ++ (("INTERCALL-IP".data).map Char.toNat) ++
    List.replicate 10 0) ++ [3]

-- ===================== Theorems =====================

example : pyLower ("ReSeT".data) = ("reset".data) := by decide
example : findNums ("a12 3 45b 7".data) = [("3".data), ("7".data)] := by decide
example : pyStrip ("  Bed No 3 ".data) = ("Bed No 3".data) := by decide
example : normStr (" No 3-".data) = ("NO3".data) := by decide
example : pySplit (" Call you ".data) = [("Call".data), ("you".data)] := by decide
example : strContains ("abcd".data) ("bc".data) = true := by decide
example :
    ingestSessions [⟨4, ("Call".data), activeStr⟩] ("Reset".data) (some 4)
      = [⟨4, ("Call".data), endedStr⟩] := by decide
example :
    ingestSessions [] ("Call".data) (some 4)
      = [⟨4, ("Call".data), activeStr⟩] := by decide

theorem countActive_cons (cs : CallSession) (l : List CallSession) (b : Nat) :
    countActive (cs :: l) b = countActive l b + (if isActiveFor b cs then 1 else 0) := by
  simp [countActive, List.countP_cons]

theorem isActiveFor_ended (b : Nat) (cs : CallSession) :
    isActiveFor b { cs with status := endedStr } = false := by
  have h : (endedStr == activeStr) = false := by decide
  simp [isActiveFor, h]

theorem countActive_endFirstActive_le (db : List CallSession) (b b' : Nat) :
    countActive (endFirstActive db b) b' ≤ countActive db b' := by
  induction db with
  | nil => simp [endFirstActive]
  | cons cs rest ih =>
    by_cases hcs : isActiveFor b cs
    · simp [endFirstActive, hcs, countActive_cons, isActiveFor_ended]
    · simp [endFirstActive, hcs, countActive_cons]
      omega

theorem countActive_setFirstActiveEvent (db : List CallSession) (b b' : Nat) (et : PyStr) :
    countActive (setFirstActiveEvent db b et) b' = countActive db b' := by
  induction db with
  | nil => rfl
  | cons cs rest ih =>
    have heq : ∀ e, isActiveFor b' { cs with current_event_type := e } = isActiveFor b' cs := by
      intro e; simp [isActiveFor]
    by_cases hcs : isActiveFor b cs
    · simp [setFirstActiveEvent, hcs, countActive_cons, heq]
    · simp [setFirstActiveEvent, hcs, countActive_cons, ih]

theorem countActive_eq_zero_of_none (db : List CallSession) (b : Nat)
    (h : db.find? (isActiveFor b) = none) : countActive db b = 0 := by
  rw [List.find?_eq_none] at h
  rw [countActive, List.countP_eq_zero]
  intro cs hcs
  exact h cs hcs

theorem sessionInv_endFirstActive (db : List CallSession) (b : Nat)
    (h : SessionInv db) : SessionInv (endFirstActive db b) :=
  fun b' => le_trans (countActive_endFirstActive_le db b b') (h b')

theorem sessionInv_getOrCreate (db : List CallSession) (b : Nat) (et : PyStr)
    (h : SessionInv db) : SessionInv (get_or_create_call_session db b et).1 := by
  intro b'
  unfold get_or_create_call_session
  cases hf : db.find? (isActiveFor b) with
  | some cs =>
    simpa [countActive_setFirstActiveEvent] using h b'
  | none =>
    have h0 : countActive db b = 0 := countActive_eq_zero_of_none db b hf
    simp only
    rw [countActive, List.countP_append]
    by_cases hb : b = b'
    · subst hb
      have h1 : List.countP (isActiveFor b) [(⟨b, et, activeStr⟩ : CallSession)] = 1 := by
        simp [List.countP_cons, isActiveFor]
      rw [h1, ← countActive, h0]
    · have h1 : List.countP (isActiveFor b') [(⟨b, et, activeStr⟩ : CallSession)] = 0 := by
        simp [List.countP_cons, isActiveFor]
        omega
      rw [h1, ← countActive]
      simpa using h b'

/-- C1: starting from a state where every bed has at most one active call
session, one ingestion cycle of `udp_listener` (session creation or
in-place update via `get_or_create_call_session`, or the reset branch that
ends the first active session) preserves that invariant, for any event type
and any resolved bed id. -/
theorem C1_session_invariant_preserved (db : List CallSession) (et : PyStr)
    (bid : Option Nat) (h : SessionInv db) : SessionInv (ingestSessions db et bid) := by
  unfold ingestSessions
  by_cases h1 : pyLower et = resetStr ∧ pyTruthyId bid
  · have hInv1 : SessionInv (endFirstActive db (bid.getD 0)) :=
      sessionInv_endFirstActive db _ h
    by_cases h2 : pyLower et ≠ resetStr ∧ pyTruthyId bid
    · exact absurd h1.1 h2.1
    · simp [h1, h2]
      exact hInv1
  · by_cases h2 : pyLower et ≠ resetStr ∧ pyTruthyId bid
    · simp [h1, h2]
      exact sessionInv_getOrCreate db _ et h
    · simp [h1, h2]
      exact h

theorem C1_witness :
    SessionInv (ingestSessions [⟨3, ("Call".data), endedStr⟩] ("Call".data) (some 7)) :=
  C1_session_invariant_preserved _ _ _ (by
    intro b
    have h : isActiveFor b ⟨3, ("Call".data), endedStr⟩ = false := by
      simp only [isActiveFor, Bool.and_eq_false_iff]
      right
      decide
    simp [countActive, List.countP_cons, h])

theorem endFirstActive_noop (db : List CallSession) (b : Nat)
    (h : ∀ cs ∈ db, isActiveFor b cs = false) : endFirstActive db b = db := by
  induction db with
  | nil => rfl
  | cons cs rest ih =>
    have h1 := h cs (by simp)
    simp [endFirstActive, h1]
    exact ih (fun c hc => h c (by simp [hc]))

/-- C8: a packet whose event type case-insensitively equals "reset",
arriving for a bed with no active call session, leaves the session table
unchanged (nothing created, ended, or modified) and the cycle runs to
completion. -/
theorem C8_reset_without_active_session_noop (db : List CallSession) (et : PyStr) (b : Nat)
    (hreset : pyLower et = resetStr)
    (hnone : ∀ cs ∈ db, isActiveFor b cs = false) :
    ingestSessions db et (some b) = db := by
  unfold ingestSessions
  have hend := endFirstActive_noop db b hnone
  by_cases hb : pyTruthyId (some b)
  · simp [hreset, hb, hend]
  · simp [hreset, hb]

theorem C8_witness :
    ingestSessions [⟨5, ("Call".data), endedStr⟩] ("ReSet".data) (some 5)
      = [⟨5, ("Call".data), endedStr⟩] :=
  C8_reset_without_active_session_noop _ _ _ (by decide) (by decide)

/-- C9: `add_camera` is idempotent on duplicate keys: if the trimmed room
key is already in the camera map, a second `add_camera` call with that key
and any source returns successfully with the whole manager state (map and
existing streams) unchanged. -/
theorem C9_add_camera_idempotent (m : CameraManager) (room_name rtsp_url : PyStr)
    (h : (m.cameras.find? (fun p => p.1 == cameraKey room_name)).isSome) :
    add_camera m room_name rtsp_url = .ok m := by
  unfold add_camera
  simp [h]

theorem C9_witness :
    add_camera
      ⟨[(("Ward 1".data), .real ("rtsp://cam".data) ("Ward 1".data))], false⟩
      (" Ward 1 ".data) ("rtsp://other".data)
      = .ok ⟨[(("Ward 1".data), .real ("rtsp://cam".data) ("Ward 1".data))], false⟩ :=
  C9_add_camera_idempotent _ _ _ (by decide)

theorem tier1_mem (tokens : List PyStr) (beds : List Bed) (b : Bed)
    (h : tier1 tokens beds = some b) : b ∈ beds := by
  induction tokens with
  | nil => simp [tier1] at h
  | cons t ts ih =>
    rw [tier1] at h
    cases hf : beds.find? (tier1Cond (pyLower t)) with
    | some x =>
      rw [hf] at h
      injection h with h'
      subst h'
      exact List.mem_of_find?_eq_some hf
    | none =>
      rw [hf] at h
      exact ih h

theorem tier2_mem (beds : List Bed) (ntokens : List PyStr) (b : Bed)
    (h : tier2 beds ntokens = some b) : b ∈ beds :=
  List.mem_of_find?_eq_some h

theorem tier3_mem (beds : List Bed) (nums : List PyStr) (b : Bed)
    (h : tier3 beds nums = some b) : b ∈ beds := by
  induction nums with
  | nil => simp [tier3] at h
  | cons n ns ih =>
    rw [tier3] at h
    cases hf : beds.find? (fun b => pyStrip (b.bed_number.getD []) == n) with
    | some x =>
      rw [hf] at h
      injection h with h'
      subst h'
      exact List.mem_of_find?_eq_some hf
    | none =>
      rw [hf] at h
      exact ih h

theorem sortedById_head_min (l : List Bed) (h : l ≠ []) :
    ∃ b t, pySortedById l = b :: t ∧ b ∈ l ∧ ∀ x ∈ l, b.id ≤ x.id := by
  induction l with
  | nil => exact absurd rfl h
  | cons a rest ih =>
    cases rest with
    | nil => exact ⟨a, [], rfl, by simp, by simp⟩
    | cons a2 rest2 =>
      obtain ⟨hb, ht, heq, hmem, hmin⟩ := ih (by simp)
      rw [pySortedById, heq, insertById]
      by_cases hlt : hb.id < a.id
      · rw [if_pos hlt]
        refine ⟨hb, insertById a ht, rfl, List.mem_cons_of_mem a hmem, ?_⟩
        intro x hx
        rw [List.mem_cons] at hx
        rcases hx with rfl | hx
        · omega
        · exact hmin x hx
      · rw [if_neg hlt]
        refine ⟨a, hb :: ht, rfl, List.mem_cons_self a _, ?_⟩
        intro x hx
        rw [List.mem_cons] at hx
        rcases hx with rfl | hx
        · omega
        · have := hmin x hx
          omega

theorem tier4_min (beds : List Bed) (h : beds ≠ []) :
    ∃ b, tier4 beds = some b ∧ b ∈ beds ∧ ∀ x ∈ beds, b.id ≤ x.id := by
  unfold tier4
  by_cases h1 : beds.length = 1
  · rw [if_pos h1]
    cases beds with
    | nil => simp at h1
    | cons a l =>
      cases l with
      | nil => exact ⟨a, by simp, by simp, by simp⟩
      | cons c d => simp at h1
  · rw [if_neg h1]
    obtain ⟨b, t, heq, hmem, hmin⟩ := sortedById_head_min beds h
    rw [heq]
    exact ⟨b, rfl, hmem, hmin⟩

theorem beds_isEmpty_false (r : Room) (h : r.beds ≠ []) : r.beds.isEmpty = false := by
  cases hb : r.beds with
  | nil => exact absurd hb h
  | cons a l => rfl

/-- C3: bed resolution is total whenever beds exist — it yields no bed only
when there is no room or the room has zero beds; with exactly one bed it
returns that bed; and when no tier matches it returns a registered bed of
minimal id (the tier-4 fallback). -/
theorem C3_resolution_totality :
    (∀ decoded, resolve_bed_in_room none decoded = none) ∧
    (∀ r decoded, r.beds = [] → resolve_bed_in_room (some r) decoded = none) ∧
    (∀ r decoded, r.beds ≠ [] → (resolve_bed_in_room (some r) decoded).isSome) ∧
    (∀ r decoded b, r.beds = [b] → resolve_bed_in_room (some r) decoded = some b) ∧
    (∀ r decoded, r.beds ≠ [] →
      tier1 (tokensOf decoded) r.beds = none →
      tier2 r.beds (ntokensOf (tokensOf decoded)) = none →
      tier3 r.beds (numsOf (tokensOf decoded)) = none →
      ∃ b, resolve_bed_in_room (some r) decoded = some b ∧ b ∈ r.beds ∧
        ∀ x ∈ r.beds, b.id ≤ x.id) := by
  refine ⟨fun _ => rfl, ?_, ?_, ?_, ?_⟩
  · intro r decoded hb
    simp only [resolve_bed_in_room]
    simp [hb]
  · intro r decoded hb
    simp only [resolve_bed_in_room]
    rw [beds_isEmpty_false r hb]
    simp only [Bool.false_eq_true, if_false]
    cases h1 : tier1 (tokensOf decoded) r.beds with
    | some b => simp
    | none =>
      cases h2 : tier2 r.beds (ntokensOf (tokensOf decoded)) with
      | some b => simp
      | none =>
        cases h3 : tier3 r.beds (numsOf (tokensOf decoded)) with
        | some b => simp
        | none =>
          obtain ⟨b, hb4, _, _⟩ := tier4_min r.beds hb
          simp [hb4]
  · intro r decoded b hb
    simp only [resolve_bed_in_room]
    rw [beds_isEmpty_false r (by rw [hb]; simp)]
    simp only [Bool.false_eq_true, if_false]
    cases h1 : tier1 (tokensOf decoded) r.beds with
    | some x =>
      have := tier1_mem _ _ _ h1
      rw [hb] at this
      simp at this
      rw [this]
    | none =>
      cases h2 : tier2 r.beds (ntokensOf (tokensOf decoded)) with
      | some x =>
        have := tier2_mem _ _ _ h2
        rw [hb] at this
        simp at this
        rw [this]
      | none =>
        cases h3 : tier3 r.beds (numsOf (tokensOf decoded)) with
        | some x =>
          have := tier3_mem _ _ _ h3
          rw [hb] at this
          simp at this
          rw [this]
        | none =>
          rw [hb]
          rfl
  · intro r decoded hb h1 h2 h3
    obtain ⟨b, hb4, hmem, hmin⟩ := tier4_min r.beds hb
    refine ⟨b, ?_, hmem, hmin⟩
    simp only [resolve_bed_in_room]
    rw [beds_isEmpty_false r hb]
    simp only [Bool.false_eq_true, if_false]
    rw [h1, h2, h3]
    exact hb4

theorem C3_witness :
    (resolve_bed_in_room (some ⟨[⟨7, some ("2".data), none⟩, ⟨4, none, none⟩]⟩)
        (mkDecoded ("x".data) [] [])).isSome ∧
    resolve_bed_in_room (some ⟨[]⟩) (mkDecoded ("x".data) [] []) = none ∧
    resolve_bed_in_room (some ⟨[⟨9, none, none⟩]⟩) (mkDecoded ("x".data) [] [])
      = some ⟨9, none, none⟩ :=
  ⟨C3_resolution_totality.2.2.1 _ _ (by decide),
   C3_resolution_totality.2.1 _ _ (by decide),
   C3_resolution_totality.2.2.2.1 _ _ _ (by decide)⟩

/-- C4: the four tiers apply in strict priority order — the resolver's
result is exactly the first-some of tier 1 (exact match), tier 2
(normalized substring), tier 3 (numeric hint) and tier 4 (fallback),
whenever the room has beds. -/
theorem C4_tier_priority (r : Room) (decoded : DecodedPacket) (h : r.beds ≠ []) :
    resolve_bed_in_room (some r) decoded =
      (tier1 (tokensOf decoded) r.beds).orElse (fun _ =>
        (tier2 r.beds (ntokensOf (tokensOf decoded))).orElse (fun _ =>
          (tier3 r.beds (numsOf (tokensOf decoded))).orElse (fun _ =>
            tier4 r.beds))) := by
  simp only [resolve_bed_in_room]
  rw [beds_isEmpty_false r h]
  simp only [Bool.false_eq_true, if_false]
  cases h1 : tier1 (tokensOf decoded) r.beds <;>
    cases h2 : tier2 r.beds (ntokensOf (tokensOf decoded)) <;>
      cases h3 : tier3 r.beds (numsOf (tokensOf decoded)) <;>
        simp [Option.orElse]

theorem C4_witness :
    resolve_bed_in_room (some ⟨[⟨1, some ("10".data), none⟩, ⟨2, some ("2".data), none⟩]⟩)
        (mkDecoded ("10".data) [] []) =
      (tier1 (tokensOf (mkDecoded ("10".data) [] []))
          [⟨1, some ("10".data), none⟩, ⟨2, some ("2".data), none⟩]).orElse (fun _ =>
        (tier2 [⟨1, some ("10".data), none⟩, ⟨2, some ("2".data), none⟩]
            (ntokensOf (tokensOf (mkDecoded ("10".data) [] [])))).orElse (fun _ =>
          (tier3 [⟨1, some ("10".data), none⟩, ⟨2, some ("2".data), none⟩]
              (numsOf (tokensOf (mkDecoded ("10".data) [] [])))).orElse (fun _ =>
            tier4 [⟨1, some ("10".data), none⟩, ⟨2, some ("2".data), none⟩]))) :=
  C4_tier_priority _ _ (by decide)

theorem charSpaceCases (c : Char) (h : pyIsSpace c = true) :
    pyIsAlnum (pyUpperChar c) = false := by
  simp only [pyIsSpace, Bool.or_eq_true, decide_eq_true_eq] at h
  rcases h with (((((((((((rfl | rfl) | rfl) | rfl) | rfl) | rfl) | rfl) | rfl) | rfl) | rfl) | rfl) | rfl) <;>
    decide

theorem charDigitCases (c : Char) (h : pyIsDigit c = true) :
    pyUpperChar c = c ∧ pyIsAlnum c = true ∧ c ≠ ' ' := by
  simp only [pyIsDigit, Bool.or_eq_true, decide_eq_true_eq] at h
  rcases h with (((((((((rfl | rfl) | rfl) | rfl) | rfl) | rfl) | rfl) | rfl) | rfl) | rfl) <;>
    exact ⟨by decide, by decide, by decide⟩

theorem normStr_all_space (l : List Char) (h : ∀ c ∈ l, pyIsSpace c = true) :
    normStr l = [] := by
  induction l with
  | nil => rfl
  | cons c l' ih =>
    have h1 := charSpaceCases c (h c (by simp))
    rw [normStr, List.map_cons, List.filter_cons, h1]
    simp only [Bool.false_eq_true, if_false]
    exact ih (fun d hd => h d (List.mem_cons_of_mem _ hd))

theorem normStr_append (l m : List Char) : normStr (l ++ m) = normStr l ++ normStr m := by
  simp [normStr, List.filter_append]

theorem normStr_digits (n : List Char) (h : ∀ c ∈ n, pyIsDigit c = true) :
    normStr n = n := by
  induction n with
  | nil => rfl
  | cons c n' ih =>
    obtain ⟨hu, ha, _⟩ := charDigitCases c (h c (by simp))
    rw [normStr, List.map_cons, List.filter_cons, hu, ha]
    simp only [if_true]
    have h2 : normStr n' = n' := ih (fun d hd => h d (List.mem_cons_of_mem _ hd))
    rw [normStr] at h2
    rw [h2]

theorem pyStrip_decomp (s : List Char) :
    ∃ l r, s = l ++ pyStrip s ++ r ∧ (∀ c ∈ l, pyIsSpace c = true) ∧
      (∀ c ∈ r, pyIsSpace c = true) := by
  have hu : s.dropWhile pyIsSpace =
      pyStrip s ++ ((s.dropWhile pyIsSpace).reverse.takeWhile pyIsSpace).reverse := by
    conv_lhs => rw [← List.reverse_reverse (s.dropWhile pyIsSpace)]
    conv_lhs =>
      rw [← List.takeWhile_append_dropWhile pyIsSpace (s.dropWhile pyIsSpace).reverse]
    rw [List.reverse_append]
    rfl
  refine ⟨s.takeWhile pyIsSpace,
    ((s.dropWhile pyIsSpace).reverse.takeWhile pyIsSpace).reverse, ?_, ?_, ?_⟩
  · conv_lhs =>
      rw [← List.takeWhile_append_dropWhile pyIsSpace s]
      rw [hu]
    exact (List.append_assoc _ _ _).symm
  · intro c hc
    exact List.mem_takeWhile_imp hc
  · intro c hc
    rw [List.mem_reverse] at hc
    exact List.mem_takeWhile_imp hc

theorem normStr_pyStrip (s : List Char) : normStr (pyStrip s) = normStr s := by
  obtain ⟨l, r, heq, hl, hr⟩ := pyStrip_decomp s
  conv_rhs => rw [heq]
  rw [normStr_append, normStr_append, normStr_all_space l hl, normStr_all_space r hr]
  simp

theorem infixOfCons (n l : List Char) (a : Char) (h : n <:+: a :: l) :
    n <+: a :: l ∨ n <:+: l := by
  obtain ⟨s, t, hs⟩ := h
  cases s with
  | nil => exact Or.inl ⟨t, by simpa using hs⟩
  | cons x s' =>
    right
    rw [List.cons_append, List.cons_append] at hs
    injection hs with _ h2
    exact ⟨s', t, h2⟩

theorem strContains_iff (hay needle : PyStr) :
    strContains hay needle = true ↔ needle <:+: hay := by
  induction hay with
  | nil =>
    rw [strContains]
    constructor
    · intro h
      have h2 : needle = [] := by simpa using h
      subst h2
      exact ⟨[], [], rfl⟩
    · intro h
      have h2 : needle = [] := by simpa using h
      subst h2
      rfl
  | cons c rest ih =>
    rw [strContains, Bool.or_eq_true, ih]
    constructor
    · rintro (h | h)
      · have hp : needle <+: c :: rest := by simpa using h
        exact hp.isInfix
      · exact List.infix_cons h
    · intro h
      rcases infixOfCons needle rest c h with hp | hi
      · exact Or.inl (by simpa using hp)
      · exact Or.inr hi


theorem prefixSplitAtSep (c : Char) :
    ∀ (n a b : List Char), n <+: a ++ c :: b → c ∉ n → n <+: a := by
  intro n
  induction n with
  | nil =>
    intro a b _ _
    exact List.nil_prefix
  | cons y n' ih =>
    intro a b h hc
    obtain ⟨t, ht⟩ := h
    cases a with
    | nil =>
      simp only [List.nil_append, List.cons_append] at ht
      injection ht with h1 _
      subst h1
      exact absurd (List.mem_cons_self y n') hc
    | cons x a' =>
      simp only [List.cons_append] at ht
      injection ht with h1 h2
      subst h1
      have hp : n' <+: a' := ih a' b ⟨t, h2⟩ (fun hm => hc (List.mem_cons_of_mem _ hm))
      obtain ⟨t', ht'⟩ := hp
      exact ⟨t', by rw [List.cons_append, ht']⟩

theorem infixSplitAtSep (c : Char) (n : List Char) (hc : c ∉ n) :
    ∀ (a b : List Char), n <:+: a ++ c :: b → n <:+: a ∨ n <:+: b := by
  intro a
  induction a with
  | nil =>
    intro b h
    rw [List.nil_append] at h
    rcases infixOfCons n b c h with hp | hi
    · have hnil : n <+: ([] : List Char) :=
        prefixSplitAtSep c n [] b (by simpa using hp) hc
      exact Or.inl hnil.isInfix
    · exact Or.inr hi
  | cons x a' ih =>
    intro b h
    rw [List.cons_append] at h
    rcases infixOfCons n (a' ++ c :: b) x h with hp | hi
    · exact Or.inl (prefixSplitAtSep c n (x :: a') b (by simpa using hp) hc).isInfix
    · rcases ih b hi with h1 | h2
      · exact Or.inl (List.infix_cons h1)
      · exact Or.inr h2

theorem joinTokensSplit (n : PyStr) (hne : n ≠ []) (hsp : ∀ ch ∈ n, ch ≠ ' ') :
    ∀ (tokens : List PyStr), n <:+: joinTokens tokens → ∃ t ∈ tokens, n <:+: t := by
  intro tokens
  induction tokens with
  | nil =>
    intro h
    simp only [joinTokens] at h
    exfalso
    apply hne
    obtain ⟨s, t, hs⟩ := h
    cases s <;> cases n <;> simp_all
  | cons t ts ih =>
    intro h
    cases ts with
    | nil =>
      simp only [joinTokens] at h
      exact ⟨t, by simp, h⟩
    | cons t2 ts2 =>
      simp only [joinTokens] at h
      have hnsp : ' ' ∉ n := fun hm => (hsp ' ' hm) rfl
      rcases infixSplitAtSep ' ' n hnsp t (joinTokens (t2 :: ts2)) h with h1 | h2
      · exact ⟨t, by simp, h1⟩
      · obtain ⟨t', hmem, hinf⟩ := ih h2
        exact ⟨t', List.mem_cons_of_mem _ hmem, hinf⟩

theorem infixExtendLeft (n pre l : List Char) (h : n <:+: l) : n <:+: pre ++ l := by
  obtain ⟨u, v, huv⟩ := h
  refine ⟨pre ++ u, v, ?_⟩
  rw [← huv]
  simp [List.append_assoc]

theorem findNumsAux_mem :
    ∀ (s : List Char) (prevW : Bool) (acc : List Char) (okS : Bool) (n : PyStr),
      n ∈ findNumsAux s prevW acc okS → (∀ c ∈ acc, pyIsDigit c = true) →
      n ≠ [] ∧ (∀ c ∈ n, pyIsDigit c = true) ∧ n <:+: acc.reverse ++ s := by
  intro s
  induction s with
  | nil =>
    intro prevW acc okS n hn hacc
    rw [findNumsAux] at hn
    by_cases hcnd : okS ∧ ¬acc.isEmpty
    · rw [if_pos hcnd] at hn
      simp only [List.mem_singleton] at hn
      subst hn
      refine ⟨?_, ?_, ?_⟩
      · intro h
        have h2 : acc = [] := by simpa using congrArg List.reverse h
        rw [h2] at hcnd
        simp at hcnd
      · intro x hx
        rw [List.mem_reverse] at hx
        exact hacc x hx
      · exact ⟨[], [], by simp⟩
    · rw [if_neg hcnd] at hn
      simp at hn
  | cons c rest ih =>
    intro prevW acc okS n hn hacc
    rw [findNumsAux] at hn
    by_cases hd : pyIsDigit c = true
    · rw [if_pos hd] at hn
      by_cases he : acc.isEmpty
      · rw [if_pos he] at hn
        obtain ⟨h1, h2, h3⟩ := ih prevW [c] (!prevW) n hn
          (by intro x hx; simp at hx; rw [hx]; exact hd)
        refine ⟨h1, h2, ?_⟩
        have hae : acc = [] := by simpa using he
        rw [hae]
        simpa using h3
      · rw [if_neg he] at hn
        obtain ⟨h1, h2, h3⟩ := ih prevW (c :: acc) okS n hn
          (by
            intro x hx
            rcases List.mem_cons.mp hx with rfl | hx2
            · exact hd
            · exact hacc x hx2)
        refine ⟨h1, h2, ?_⟩
        simpa [List.reverse_cons, List.append_assoc] using h3
    · rw [if_neg hd] at hn
      by_cases hemit : ¬acc.isEmpty ∧ okS ∧ ¬reWordChar c
      · rw [if_pos hemit] at hn
        rcases List.mem_cons.mp hn with rfl | htail
        · refine ⟨?_, ?_, ?_⟩
          · intro h
            have h2 : acc = [] := by simpa using congrArg List.reverse h
            rw [h2] at hemit
            simp at hemit
          · intro x hx
            rw [List.mem_reverse] at hx
            exact hacc x hx
          · exact ⟨[], c :: rest, by simp⟩
        · obtain ⟨h1, h2, h3⟩ := ih (reWordChar c) [] false n htail (by simp)
          refine ⟨h1, h2, ?_⟩
          simp only [List.reverse_nil, List.nil_append] at h3
          have h4 := infixExtendLeft n (acc.reverse ++ [c]) rest h3
          simpa [List.append_assoc] using h4
      · rw [if_neg hemit] at hn
        obtain ⟨h1, h2, h3⟩ := ih (reWordChar c) [] false n hn (by simp)
        refine ⟨h1, h2, ?_⟩
        simp only [List.reverse_nil, List.nil_append] at h3
        have h4 := infixExtendLeft n (acc.reverse ++ [c]) rest h3
        simpa [List.append_assoc] using h4

theorem findNums_mem (s : List Char) (n : PyStr) (hn : n ∈ findNums s) :
    n ≠ [] ∧ (∀ c ∈ n, pyIsDigit c = true) ∧ n <:+: s := by
  have h := findNumsAux_mem s false [] false n hn (by simp)
  simpa using h

theorem tier3_eq_some (beds : List Bed) (nums : List PyStr) (b : Bed)
    (h : tier3 beds nums = some b) :
    ∃ n ∈ nums, b ∈ beds ∧ pyStrip (b.bed_number.getD []) = n := by
  induction nums with
  | nil => simp [tier3] at h
  | cons n ns ih =>
    rw [tier3] at h
    cases hf : beds.find? (fun bb => pyStrip (bb.bed_number.getD []) == n) with
    | some x =>
      rw [hf] at h
      injection h with h'
      subst h'
      have hmem := List.mem_of_find?_eq_some hf
      have hpred := List.find?_some hf
      simp only [beq_iff_eq] at hpred
      exact ⟨n, by simp, hmem, hpred⟩
    | none =>
      rw [hf] at h
      obtain ⟨m, hm, hmem, hstrip⟩ := ih h
      exact ⟨m, List.mem_cons_of_mem _ hm, hmem, hstrip⟩

theorem tier2_none_noMatch (beds : List Bed) (ntokens : List PyStr)
    (h : tier2 beds ntokens = none) :
    ∀ b ∈ beds, ∀ nt ∈ ntokens, (!nt.isEmpty && tier2Cond b nt) = false := by
  rw [tier2, List.find?_eq_none] at h
  intro b hb nt hnt
  by_cases hcond : (!nt.isEmpty && tier2Cond b nt) = true
  · exact absurd (List.any_eq_true.mpr ⟨nt, hnt, hcond⟩) (h b hb)
  · simpa using hcond

/-- Tier 3 is unreachable: whenever the numeric-hint tier would match, the
normalized-substring tier has already matched (the digit hint survives
normalization as a substring of both the token and the bed number). -/
theorem tier2_none_imp_tier3_none (beds : List Bed) (tokens : List PyStr)
    (h2 : tier2 beds (ntokensOf tokens) = none) :
    tier3 beds (numsOf tokens) = none := by
  cases h3 : tier3 beds (numsOf tokens) with
  | none => rfl
  | some b =>
    exfalso
    obtain ⟨n, hn, hbmem, hstrip⟩ := tier3_eq_some beds _ b h3
    rw [numsOf] at hn
    obtain ⟨hne, hdig, hinf⟩ := findNums_mem _ _ hn
    have hnsp : ∀ ch ∈ n, ch ≠ ' ' := fun ch hm => (charDigitCases ch (hdig ch hm)).2.2
    obtain ⟨t, htmem, htinf⟩ := joinTokensSplit n hne hnsp tokens hinf
    have htne : ¬t.isEmpty := by
      intro h
      have ht : t = [] := by simpa using h
      subst ht
      apply hne
      obtain ⟨u, v, huv⟩ := htinf
      cases u <;> cases n <;> simp_all
    have hntmem : normStr t ∈ ntokensOf tokens := by
      rw [ntokensOf]
      apply List.mem_map_of_mem
      rw [List.mem_filter]
      exact ⟨htmem, by simpa using htne⟩
    have hninf : n <:+: normStr t := by
      obtain ⟨u, v, huv⟩ := htinf
      rw [← huv, normStr_append, normStr_append, normStr_digits n hdig]
      exact ⟨normStr u, normStr v, rfl⟩
    have hcontains : strContains (normStr t) n = true := (strContains_iff _ _).mpr hninf
    have hbn : normStr (b.bed_number.getD []) = n := by
      rw [← normStr_pyStrip, hstrip, normStr_digits n hdig]
    have hntne : (normStr t).isEmpty = false := by
      cases hh : normStr t with
      | nil =>
        exfalso
        rw [hh] at hninf
        apply hne
        obtain ⟨u, v, huv⟩ := hninf
        cases u <;> cases n <;> simp_all
      | cons a l => rfl
    have hcond : (!(normStr t).isEmpty && tier2Cond b (normStr t)) = true := by
      rw [hntne]
      simp only [Bool.not_false, Bool.true_and]
      rw [tier2Cond]
      simp only [hbn]
      have h5 : n.isEmpty = false := by
        cases n with
        | nil => exact absurd rfl hne
        | cons a l => rfl
      rw [hcontains, h5]
      simp
    have hfin := tier2_none_noMatch beds _ h2 b hbmem (normStr t) hntmem
    rw [hcond] at hfin
    simp at hfin

/-- C6 is refuted: no room with three beds and no decoded input can make
the numeric-hint tier decide resolution with hint "3" while tiers 1 and 2
fail — whenever tier 3 would match, tier 2 has already matched. -/
theorem C6_counterexample : ¬ ∃ (r : Room) (decoded : DecodedPacket) (b : Bed),
    r.beds.length = 3 ∧
    ("3".data) ∈ numsOf (tokensOf decoded) ∧
    tier1 (tokensOf decoded) r.beds = none ∧
    tier2 r.beds (ntokensOf (tokensOf decoded)) = none ∧
    tier3 r.beds (numsOf (tokensOf decoded)) = some b ∧
    b.bed_number = some ("3".data) ∧
    resolve_bed_in_room (some r) decoded = some b := by
  rintro ⟨r, decoded, b, -, -, -, h2, h3, -, -⟩
  have hdead := tier2_none_imp_tier3_none r.beds (tokensOf decoded) h2
  rw [hdead] at h3
  exact Option.noConfusion h3

/-- C6 (amended): in a room with three beds, a decoded input whose tokens
yield the standalone digit hint "3" and match no bed exactly resolves to
the bed numbered "3" via the normalized-substring tier (tier 2), not the
numeric-hint tier; tier 3 can never decide, because whenever it would
match, tier 2 has already matched. -/
theorem C6_amended_numeric_hint_via_tier2 :
    (c6Room.beds.length = 3 ∧
     ("3".data) ∈ numsOf (tokensOf c6Decoded) ∧
     tier1 (tokensOf c6Decoded) c6Room.beds = none ∧
     tier2 c6Room.beds (ntokensOf (tokensOf c6Decoded)) = some c6Bed ∧
     c6Bed.bed_number = some ("3".data) ∧
     resolve_bed_in_room (some c6Room) c6Decoded = some c6Bed) ∧
    (∀ (beds : List Bed) (tokens : List PyStr),
      tier2 beds (ntokensOf tokens) = none → tier3 beds (numsOf tokens) = none) :=
  ⟨by decide, tier2_none_imp_tier3_none⟩

theorem C6_amended_witness :
    tier3 [⟨1, some ("1".data), none⟩] (numsOf [("abc".data)]) = none :=
  C6_amended_numeric_hint_via_tier2.2 _ _ (by decide)

/-- C2: decoding fails (returns `none`) for the empty buffer, for buffers
not starting with 0x02 or not ending with 0x03, and for well-framed buffers
whose interior payload is shorter than 24 bytes (length below 26). -/
theorem C2_decode_framing (data : List Nat)
    (h : data = [] ∨ data.headD 0 ≠ 2 ∨ data.getLastD 0 ≠ 3 ∨ data.length < 26) :
    decode_l7700_packet data = none := by
  rw [decode_l7700_packet]
  by_cases h1 : data.isEmpty ∨ data.headD 0 ≠ 2 ∨ data.getLastD 0 ≠ 3
  · rw [if_pos h1]
  · rw [if_neg h1]
    push_neg at h1
    obtain ⟨hne, h2, h3⟩ := h1
    have hlen : data.length < 26 := by
      rcases h with h | h | h | h
      · rw [h] at hne
        simp at hne
      · exact absurd h2 h
      · exact absurd h3 h
      · exact h
    have hp : (payloadOf data).length < 24 := by
      rw [payloadOf]
      simp only [List.length_dropLast, List.length_drop]
      omega
    rw [if_pos hp]

theorem C2_witness : decode_l7700_packet [0, 1] = none :=
  C2_decode_framing [0, 1] (Or.inr (Or.inl (by decide)))

/-- C7: for every successfully decoded frame the timestamp is the parse of
the 8-byte block at payload offsets 16..24; the parse yields the zero
timestamp when fewer than 6 bytes are available, and otherwise formats
year = 2000 + b0 when b0 < 100 (else b0 verbatim) with zero-padded
month/day/hour/minute/second and no range validation. -/
theorem C7_timestamp_extraction :
    (∀ data : List Nat, (decode_l7700_packet data).elim True (fun d =>
      d.timestamp = _parse_timestamp (((payloadOf data).drop 16).take 8))) ∧
    (∀ ts : List Nat, ts.length < 6 →
      _parse_timestamp ts = ("0000-00-00 00:00:00".data)) ∧
    (∀ ts : List Nat, 6 ≤ ts.length →
      _parse_timestamp ts =
        padNum 4 (if ts.getD 0 0 < 100 then 2000 + ts.getD 0 0 else ts.getD 0 0) ++
          ('-' :: padNum 2 (ts.getD 1 0)) ++ ('-' :: padNum 2 (ts.getD 2 0)) ++
          (' ' :: padNum 2 (ts.getD 3 0)) ++ (':' :: padNum 2 (ts.getD 4 0)) ++
          (':' :: padNum 2 (ts.getD 5 0))) := by
  refine ⟨?_, ?_, ?_⟩
  · intro data
    rw [decode_l7700_packet]
    by_cases h1 : data.isEmpty ∨ data.headD 0 ≠ 2 ∨ data.getLastD 0 ≠ 3
    · rw [if_pos h1]
      trivial
    · rw [if_neg h1]
      by_cases h2 : (payloadOf data).length < 24
      · rw [if_pos h2]
        trivial
      · rw [if_neg h2]
        exact rfl
  · intro ts h
    rw [_parse_timestamp, if_pos h]
  · intro ts h
    rw [_parse_timestamp, if_neg (by omega)]

theorem C7_witness :
    ((decode_l7700_packet (c5Data 0)).elim True (fun d =>
      d.timestamp = _parse_timestamp (((payloadOf (c5Data 0)).drop 16).take 8))) ∧
    _parse_timestamp [1, 2] = ("0000-00-00 00:00:00".data) ∧
    _parse_timestamp [200, 13, 40, 99, 7, 61, 0, 0] =
      padNum 4 (if (200 : Nat) < 100 then 2000 + 200 else 200) ++
        ('-' :: padNum 2 13) ++ ('-' :: padNum 2 40) ++
        (' ' :: padNum 2 99) ++ (':' :: padNum 2 7) ++ (':' :: padNum 2 61) :=
  ⟨C7_timestamp_extraction.1 (c5Data 0),
   C7_timestamp_extraction.2.1 [1, 2] (by decide),
   C7_timestamp_extraction.2.2 [200, 13, 40, 99, 7, 61, 0, 0] (by decide)⟩

theorem dropWhile_nil_of_all (p : Char → Bool) (l : List Char)
    (h : ∀ c ∈ l, p c = true) : l.dropWhile p = [] := by
  induction l with
  | nil => rfl
  | cons c l' ih =>
    rw [List.dropWhile_cons, if_pos (h c (by simp))]
    exact ih (fun d hd => h d (List.mem_cons_of_mem _ hd))

theorem pyStrip_all_space (l : List Char) (h : ∀ c ∈ l, pyIsSpace c = true) :
    pyStrip l = [] := by
  rw [pyStrip, dropWhile_nil_of_all pyIsSpace l h]
  rfl

theorem cleanup_null_space (blk : List Char)
    (h : ∀ c ∈ blk, c = '\x00' ∨ pyIsSpace c = true) :
    _cleanup_ascii_block blk = [] := by
  rw [_cleanup_ascii_block]
  apply pyStrip_all_space
  intro c hc
  rw [List.mem_filter] at hc
  obtain ⟨hcm, hcne⟩ := hc
  rcases h c hcm with rfl | hs
  · simp at hcne
  · exact hs

/-- C10: when the payload contains the marker `"INTERCALL-IP"` and the 32
characters after it are only NUL bytes and whitespace, the decoded event is
the empty string, not `"UNKNOWN"`; and whenever the marker is present the
event field comes from the marker branch alone (the keyword priority list
is never consulted). -/
theorem C10_marker_event_empty :
    (∀ (data : List Nat) (idx : Nat),
      strFind (payloadAscii data) markerStr = some idx →
      (∀ c ∈ sliceStr (payloadAscii data) (idx + 12) (idx + 12 + 32),
        c = '\x00' ∨ pyIsSpace c = true) →
      (decode_l7700_packet data).elim True (fun d =>
        d.event = [] ∧ d.event ≠ ("UNKNOWN".data))) ∧
    (∀ (data : List Nat) (idx : Nat),
      strFind (payloadAscii data) markerStr = some idx →
      (decode_l7700_packet data).elim True (fun d =>
        d.event = pyStrip (markerEvent (payloadAscii data) idx))) := by
  constructor
  · intro data idx hfind hblk
    rw [decode_l7700_packet]
    by_cases h1 : data.isEmpty ∨ data.headD 0 ≠ 2 ∨ data.getLastD 0 ≠ 3
    · rw [if_pos h1]
      trivial
    · rw [if_neg h1]
      by_cases h2 : (payloadOf data).length < 24
      · rw [if_pos h2]
        trivial
      · rw [if_neg h2]
        simp only [Option.elim]
        simp only [hfind]
        have hme : markerEvent (payloadAscii data) idx = [] := by
          rw [markerEvent, cleanup_null_space _ hblk]
          rfl
        rw [hme]
        exact ⟨rfl, by decide⟩
  · intro data idx hfind
    rw [decode_l7700_packet]
    by_cases h1 : data.isEmpty ∨ data.headD 0 ≠ 2 ∨ data.getLastD 0 ≠ 3
    · rw [if_pos h1]
      trivial
    · rw [if_neg h1]
      by_cases h2 : (payloadOf data).length < 24
      · rw [if_pos h2]
        trivial
      · rw [if_neg h2]
        simp only [Option.elim]
        simp only [hfind]

theorem C10_witness :
    ((decode_l7700_packet c10Data).elim True (fun d =>
      d.event = [] ∧ d.event ≠ ("UNKNOWN".data))) ∧
    ((decode_l7700_packet c10Data).elim True (fun d =>
      d.event = pyStrip (markerEvent (payloadAscii c10Data) 6))) :=
  ⟨C10_marker_event_empty.1 c10Data 6 (by decide) (by decide),
   C10_marker_event_empty.2 c10Data 6 (by decide)⟩

/-- C5 fails at pad = 1: every field of the scenario decodes as claimed
except the event, which keeps the trailing 0x02 padding byte (`strip()`
removes whitespace only, and 0x02 is not whitespace), so it is
`"Call\x02"`, not `"Call"`. -/
theorem C5_counterexample :
    (decode_l7700_packet (c5Data 1)).map (fun d =>
      (strContains d.room_name ("101".data), d.bed_name, d.device, d.event)) =
      some (true, ("Bed No 3".data), ("INTERCALL-IP".data), ("Call".data) ++ ['\x02']) ∧
    ("Call".data) ++ ['\x02'] ≠ ("Call".data) :=
  ⟨by decide, by decide⟩

/-- C5 (amended): for pad = 0, decoding the scenario frame succeeds and
yields a room label containing "101", bed label "Bed No 3", device
"INTERCALL-IP", and event "Call".  (For pad ≥ 1, all fields but the event
still hold; the event keeps the surviving 0x02 padding bytes, as the
counterexample at pad = 1 shows.) -/
theorem C5_amended_pad_zero :
    (decode_l7700_packet (c5Data 0)).map (fun d =>
      (strContains d.room_name ("101".data), d.bed_name, d.device, d.event)) =
      some (true, ("Bed No 3".data), ("INTERCALL-IP".data), ("Call".data)) := by
  decide
